import Mathlib

/-!
# Verification of the Kokoro-API TTS server

Shallow embedding of `src/app.py` (Flask + Socket.IO text-to-speech server) and
the properties its specification states about it.

Conventions:
* Python strings are modelled as `List Char`.
* Python byte strings are modelled as `List Nat`, every element `< 256`.
* The external model call `generate(...)` is an oracle parameter; fallible code
  returns `Except`/`Option`; handlers are pure functions from request data and
  session state to new state plus emitted events.
-/

/-! ## Python string primitives -/

/-- The whitespace characters removed by Python `str.strip()`:
space, tab (9), newline (10), vertical tab (11), form feed (12),
carriage return (13). -/
def isPySpace (c : Char) : Bool :=
  c = ' ' || c = Char.ofNat 9 || c = Char.ofNat 10 || c = Char.ofNat 11 ||
  c = Char.ofNat 12 || c = Char.ofNat 13

/-- Python `s.strip()`: drop leading and trailing whitespace. -/
def pyStrip (l : List Char) : List Char :=
  ((l.dropWhile isPySpace).reverse.dropWhile isPySpace).reverse

/-- Python `s.split('.')`: split at every occurrence of `'.'`; adjacent dots and
boundary dots produce empty fields, and the empty string yields `[""]`. -/
def pySplitDot : List Char → List (List Char)
  | [] => [[]]
  | c :: rest =>
    if c = '.' then [] :: pySplitDot rest
    else
      match pySplitDot rest with
      | [] => [[c]]
      | g :: gs => (c :: g) :: gs

/-! ## Sentence batching (`app.py`, `process_queue`, lines 133–144) -/

/-- Model of `app.py` line 133: `sentences = [s.strip() for s in text.split('.') if s.strip()]`. -/
def sentencesOf (text : List Char) : List (List Char) :=
  ((pySplitDot text).map pyStrip).filter (fun s => !s.isEmpty)

/-- The separator `". "` appended after each sentence (`app.py` lines 138 and 142). -/
def sentSep : List Char := ['.', ' ']

/-- Model of `app.py` lines 135–144: the batching loop, with `cur` playing the role of
`current_batch`.  A sentence is added to the current batch while the combined
length stays under 150; otherwise the current batch (if non-empty) is emitted
and a new batch starts; the trailing batch is flushed at the end. -/
def batchGo : List (List Char) → List Char → List (List Char)
  | [], cur => if cur = [] then [] else [cur]
  | s :: rest, cur =>
    if cur.length + s.length < 150 then
      batchGo rest (cur ++ s ++ sentSep)
    else if cur = [] then
      batchGo rest (s ++ sentSep)
    else
      cur :: batchGo rest (s ++ sentSep)

/-- Model of `app.py` lines 133–144: split `text` into stripped sentences and batch them. -/
def batchedSentences (text : List Char) : List (List Char) :=
  batchGo (sentencesOf text) []

/-! ## Base64 (`base64.b64encode(...).decode('utf-8')`, `app.py` line 190) -/

/-- The standard base64 alphabet, in index order. -/
def b64Table : List Char :=
  String.toList "ABCDEFGHIJKLMNOPQRSTUVWXYZabcdefghijklmnopqrstuvwxyz0123456789+/"

/-- The character encoding a 6-bit value. -/
def charOf (n : Nat) : Char := b64Table.getD n '='

/-- The 6-bit value of a base64 character, `none` for characters outside the
alphabet. -/
def valOf (c : Char) : Option Nat := b64Table.indexOf? c

/-- Standard base64 encoding of a byte sequence (bytes are `Nat`s `< 256`),
three bytes at a time, with `'='` padding on a trailing group of 1 or 2 bytes. -/
def b64encode : List Nat → List Char
  | [] => []
  | [a] => [charOf (a / 4), charOf (a % 4 * 16), '=', '=']
  | [a, b] => [charOf (a / 4), charOf (a % 4 * 16 + b / 16), charOf (b % 16 * 4), '=']
  | a :: b :: c :: rest =>
    charOf (a / 4) :: charOf (a % 4 * 16 + b / 16) :: charOf (b % 16 * 4 + c / 64) ::
      charOf (c % 64) :: b64encode rest

/-- Standard base64 decoding, the inverse of `b64encode`: four characters at a
time, `'='` padding allowed only in the final group. -/
def b64decode : List Char → Option (List Nat)
  | [] => some []
  | w :: x :: y :: z :: rest =>
    match valOf w, valOf x with
    | some s0, some s1 =>
      if y = '=' then
        if z = '=' ∧ rest = [] then some [s0 * 4 + s1 / 16] else none
      else
        match valOf y with
        | some s2 =>
          if z = '=' then
            if rest = [] then some [s0 * 4 + s1 / 16, s1 % 16 * 16 + s2 / 4] else none
          else
            match valOf z with
            | some s3 =>
              (b64decode rest).map
                (fun bs => (s0 * 4 + s1 / 16) :: (s1 % 16 * 16 + s2 / 4) ::
                  (s2 % 4 * 64 + s3) :: bs)
            | none => none
        | none => none
    | _, _ => none
  | _ => none

/-! ## Sessions and Socket.IO events (`app.py` lines 49–113) -/

/-- The apostrophe character, used by Python `repr` of strings. -/
def squoteChar : Char := Char.ofNat 39

/-- Per-session state (`app.py` lines 66–70): selected voice, pending-text
queue, processing flag. -/
structure Session where
  voice : List Char
  queue : List (List Char)
  processing : Bool
deriving DecidableEq

/-- Constant from `app.py` line 47: `DEFAULT_VOICE = 'af'`. -/
def DEFAULT_VOICE : List Char := String.toList "af"

/-- The session created on connect (`app.py` lines 65–70). -/
def initSession : Session :=
  { voice := DEFAULT_VOICE, queue := [], processing := false }

/-- The Socket.IO events the server emits. -/
inductive SockEvent where
  | connectionTest
  | voiceSet (voice : List Char)
  | audioChunk (audio : List Char) (text : List Char)
  | errorEvt (message : List Char)
deriving DecidableEq

/-- Python `repr` of a string (single-quoted), as used by `str(list)`. -/
def pyQuote (s : List Char) : List Char := squoteChar :: (s ++ [squoteChar])

/-- Comma-space-separated concatenation, as inside Python `str(list)`. -/
def commaSep : List (List Char) → List Char
  | [] => []
  | [x] => x
  | x :: y :: rest => x ++ [',', ' '] ++ commaSep (y :: rest)

/-- Python `str(list_of_strings)`: bracketed, comma-separated, single-quoted. -/
def pyStrListRepr (xs : List (List Char)) : List Char :=
  '[' :: (commaSep (xs.map pyQuote) ++ [']'])

/-- Message from `app.py` line 88: `f'Voice not found. Available voices: {list(VOICES.keys())}'`. -/
def voiceErrMsg (voices : List (List Char)) : List Char :=
  String.toList "Voice not found. Available voices: " ++ pyStrListRepr voices

/-- Model of `app.py` lines 83–92, `handle_set_voice`: `voices` is the key list of the
`VOICES` store, `dataVoice` is `data.get('voice', DEFAULT_VOICE)`.  Returns the
new session state and the emitted event. -/
def handle_set_voice (voices : List (List Char)) (session : Session)
    (dataVoice : Option (List Char)) : Session × SockEvent :=
  let voice := dataVoice.getD DEFAULT_VOICE
  if voice ∉ voices then
    (session, .errorEvt (voiceErrMsg voices))
  else
    ({ session with voice := voice }, .voiceSet voice)

/-- Model of `app.py` lines 94–113, `handle_tts`: strip the incoming text; return silently
when it is empty; otherwise enqueue it and, when the processing flag is clear,
set the flag and spawn a worker.  Result: (new session, emitted events, whether
a worker thread was started). -/
def handle_tts (session : Option Session) (dataText : Option (List Char)) :
    Option Session × List SockEvent × Bool :=
  match session with
  | none => (none, [.errorEvt (String.toList "Invalid session")], false)
  | some s =>
    let text := pyStrip (dataText.getD [])
    if text = [] then (some s, [], false)
    else
      let s1 : Session := { s with queue := s.queue ++ [text] }
      if s1.processing then (some s1, [], false)
      else (some { s1 with processing := true }, [], true)

/-! ## WAV validation and emission (`app.py` lines 163–202) -/

/-- The `b'RIFF'` magic expected at offset 0 (`app.py` line 176). -/
def riffBytes : List Nat := [82, 73, 70, 70]

/-- The `b'WAVE'` magic expected at bytes 8..12 (`app.py` line 181). -/
def waveBytes : List Nat := [87, 65, 86, 69]

/-- Message format `f'Error generating audio: {str(e)}'` of `app.py` line 201. -/
def genErrMsg (e : List Char) : List Char :=
  String.toList "Error generating audio: " ++ e

/-- Model of `app.py` lines 169–202: validate the WAV bytes produced for one batch and
emit either an `audio_chunk` event carrying the base64-encoded bytes or an
`error` event (the raised exception is caught at line 198 and re-emitted). -/
def sendBatchAudio (wav : List Nat) (batchText : List Char) : SockEvent :=
  if wav.length < 44 then
    .errorEvt (genErrMsg (String.toList "WAV data too short"))
  else if wav.take 4 ≠ riffBytes then
    .errorEvt (genErrMsg (String.toList "Invalid WAV format"))
  else if (wav.drop 8).take 4 ≠ waveBytes then
    .errorEvt (genErrMsg (String.toList "Invalid WAV format"))
  else
    .audioChunk (b64encode wav) batchText

/-! ## Per-session worker state machine (`app.py` lines 94–129)

A state is the pair (session state, number of live worker threads currently
draining this session's queue).  Each constructor of `Step` is one atomic
handler invocation or one worker loop iteration, exactly as the code performs
them. -/

/-- One step of the per-session system.
* `tts`: one `handle_tts` invocation (`app.py` lines 94–113); when it reports
  that a thread was started the worker count rises by one.
* `setVoice`: one `handle_set_voice` invocation (lines 83–92).
* `workPop`: one worker loop iteration in which `get_nowait` succeeds and the
  dequeued text is processed (lines 122–202); the flag is not touched.
* `workDone`: the worker finds the queue empty, clears the processing flag and
  exits (lines 127–129). -/
inductive Step : Session × Nat → Session × Nat → Prop where
  | tts (s : Session) (w : Nat) (t : List Char) (s2 : Session) (spawned : Bool)
      (h : handle_tts (some s) (some t) = (some s2, [], spawned)) :
      Step (s, w) (s2, w + (if spawned then 1 else 0))
  | setVoice (s : Session) (w : Nat) (voices : List (List Char))
      (dv : Option (List Char)) (s2 : Session) (ev : SockEvent)
      (h : handle_set_voice voices s dv = (s2, ev)) :
      Step (s, w) (s2, w)
  | workPop (s : Session) (w : Nat) (t : List Char) (rest : List (List Char))
      (hq : s.queue = t :: rest) (hw : 0 < w) :
      Step (s, w) ({ s with queue := rest }, w)
  | workDone (s : Session) (w : Nat) (hq : s.queue = []) (hw : 0 < w) :
      Step (s, w) ({ s with processing := false }, w - 1)

/-- States reachable from the fresh session created on connect
(`app.py` lines 62–70). -/
inductive Reachable : Session × Nat → Prop where
  | init : Reachable (initSession, 0)
  | step {a b : Session × Nat} : Reachable a → Step a b → Reachable b

/-! ## HTTP `/tts` endpoint (`app.py` lines 220–296) -/

/-- The three response shapes of the HTTP handler: a 200 `audio/wav` file, a
JSON error with status 400, or a JSON error with status 500. -/
inductive HttpResp where
  | okWav
  | clientError (message : List Char)
  | serverError (message : List Char)
deriving DecidableEq

/-- Message `str(e)` for the `UnboundLocalError` raised when the function-local
`voice_name` — made local to `text_to_speech` by the assignment at `app.py`
line 255 — is read at line 239 before any assignment (CPython wording). -/
def unboundLocalMsg : List Char :=
  String.toList "local variable " ++ pyQuote (String.toList "voice_name") ++
    String.toList " referenced before assignment"

/-- Message `str(e)` for the `TypeError` raised by `len(None)` at `app.py` line 227
when the request carries no text. -/
def lenNoneMsg : List Char :=
  String.toList "object of type " ++ pyQuote (String.toList "NoneType") ++
    String.toList " has no len()"

/-- Message from `app.py` line 253. -/
def maxLenErrMsg : List Char :=
  String.toList "Text exceeds maximum length of 500 characters"

/-- Message from `app.py` line 258. -/
def noTextErrMsg : List Char := String.toList "No text provided"

/-- Message from `app.py` line 270. -/
def emptyAudioErrMsg : List Char := String.toList "Failed to generate audio"

/-- Message from `app.py` line 285. -/
def tooSmallErrMsg : List Char := String.toList "Generated audio file too small"

/-- Split a list into consecutive pieces of size `cPred + 1` (the piece size is
kept positive by construction), preserving order; models Python slicing
`[s[i:i+n] for i in range(0, len(s), n)]` with `n = cPred + 1`. -/
def chunkEvery (cPred : Nat) : List Char → List (List Char)
  | [] => []
  | x :: xs =>
    (x :: xs).take (cPred + 1) :: chunkEvery cPred ((x :: xs).drop (cPred + 1))
termination_by l => l.length
decreasing_by simp [List.length_drop]; omega

/-- Python `[text[i:i+n] for i in range(0, len(text), n)]` for `n ≥ 1`
(`app.py` line 228 uses `n = CHUNK_SIZE = 150`). -/
def pyChunks (n : Nat) (l : List Char) : List (List Char) := chunkEvery (n - 1) l

/-- Model of `app.py` lines 233–242: the generation loop of the HTTP handler.
`voiceNameLocal` is the value of the function-local `voice_name` when the loop
runs (`none` = not yet assigned; the only assignment is at line 255, after the
loop, so the handler always enters the loop with `none`, and in Python the read
of `VOICES[voice_name]` at line 239 then raises `UnboundLocalError` before
`generate` is called).  A missing store key raises `KeyError` (whose `str` is
the quoted key).  `gen` is the external `generate` oracle.  Returns the
collected audio arrays, in chunk order, or the raised exception's message,
together with the number of `generate` invocations performed. -/
def chunkLoop {α : Type} (voiceNameLocal : Option (List Char))
    (voices : List (List Char)) (gen : List Char → List Char → List α) :
    List (List Char) → Except (List Char) (List (List α)) × Nat
  | [] => (.ok [], 0)
  | chunk :: rest =>
    match voiceNameLocal with
    | none => (.error unboundLocalMsg, 0)
    | some vn =>
      if vn ∈ voices then
        let audio := gen chunk vn
        match chunkLoop voiceNameLocal voices gen rest with
        | (.ok arrs, n) => (.ok (audio :: arrs), n + 1)
        | (.error e, n) => (.error e, n + 1)
      else (.error (pyQuote vn), 0)

/-- Model of `app.py` lines 245–292: the remainder of the HTTP handler after the
generation loop, given the concatenated audio buffer.  `wavBytes` abstracts the
`scipy.io.wavfile.write` serialization of an audio buffer to WAV bytes; the
`X-Text-Length-Warning` header (lines 248–250) does not alter the response body
and is not modelled. -/
def afterGenerate {α : Type} (wavBytes : List α → List Nat)
    (voices : List (List Char)) (t : List Char) (dataVoice : Option (List Char))
    (audio : List α) : HttpResp :=
  if 500 < t.length then .clientError maxLenErrMsg
  else
    let voice_name := dataVoice.getD DEFAULT_VOICE
    if t = [] then .clientError noTextErrMsg
    else if voice_name ∉ voices then .clientError (voiceErrMsg voices)
    else if audio.isEmpty then .serverError emptyAudioErrMsg
    else if (wavBytes audio).length < 1024 then .serverError tooSmallErrMsg
    else .okWav

/-- Model of `app.py` lines 220–296: the HTTP `/tts` handler `text_to_speech`.
`dataText` and `dataVoice` model `data.get('text')` and `data.get('voice', ...)`.
A missing text makes `len(text)` at line 227 raise `TypeError`; it and any
exception raised in the generation loop are caught at line 294 and returned as
a 500 response.  The second component counts `generate` invocations. -/
def text_to_speech {α : Type} (wavBytes : List α → List Nat)
    (voices : List (List Char)) (gen : List Char → List Char → List α)
    (dataText : Option (List Char)) (dataVoice : Option (List Char)) :
    HttpResp × Nat :=
  match dataText with
  | none => (.serverError lenNoneMsg, 0)
  | some t =>
    let chunks := if 150 < t.length then pyChunks 150 t else [t]
    match chunkLoop none voices gen chunks with
    | (.error e, n) => (.serverError e, n)
    | (.ok arrs, n) => (afterGenerate wavBytes voices t dataVoice arrs.flatten, n)

/-- A 501-character text, one character over the documented 500-character
maximum. -/
def longText : List Char := List.replicate 501 'a'

/-! ## Audio transport frames -/

/-- Modelled from the spec: the WebSocket JSON transport's audio chunking is
not part of `src/` (the Socket.IO path at `app.py` lines 190–195 emits the
whole base64 string in one event).  Per the spec, "after base64-encoding the
WAV bytes, split into fixed-size substrings (configurable, e.g. 8192 bytes)
preserving order; the last chunk is flagged `is_final`".  Frame size is
`cPred + 1`; each frame is the substring paired with its `is_final` flag. -/
def audioFrames (cPred : Nat) : List Char → List (List Char × Bool)
  | [] => []
  | x :: xs =>
    if (x :: xs).drop (cPred + 1) = [] then [((x :: xs).take (cPred + 1), true)]
    else ((x :: xs).take (cPred + 1), false) ::
      audioFrames cPred ((x :: xs).drop (cPred + 1))
termination_by l => l.length
decreasing_by simp [List.length_drop]; omega

/-- A minimal well-formed 44-byte WAV header (RIFF chunk id, size, WAVE id,
zero-filled remainder), used as a concrete test vector. -/
def wav44 : List Nat := riffBytes ++ [36, 0, 0, 0] ++ waveBytes ++ List.replicate 32 0

/-! ## Theorems -/

theorem valOf_charOf : ∀ n < 64, valOf (charOf n) = some n := by decide

theorem charOf_ne_pad : ∀ n < 64, charOf n ≠ '=' := by decide

theorem b64decode_b64encode (l : List Nat) (h : ∀ b ∈ l, b < 256) :
    b64decode (b64encode l) = some l := by
  induction l using b64encode.induct with
  | case1 => simp [b64encode, b64decode]
  | case2 a =>
    have ha : a < 256 := h a (by simp)
    have h0 : valOf (charOf (a / 4)) = some (a / 4) := valOf_charOf _ (by omega)
    have h1 : valOf (charOf (a % 4 * 16)) = some (a % 4 * 16) := valOf_charOf _ (by omega)
    simp [b64encode, b64decode, h0, h1]
    omega
  | case3 a b =>
    have ha : a < 256 := h a (by simp)
    have hb : b < 256 := h b (by simp)
    have h0 : valOf (charOf (a / 4)) = some (a / 4) := valOf_charOf _ (by omega)
    have h1 : valOf (charOf (a % 4 * 16 + b / 16)) = some (a % 4 * 16 + b / 16) :=
      valOf_charOf _ (by omega)
    have h2 : valOf (charOf (b % 16 * 4)) = some (b % 16 * 4) := valOf_charOf _ (by omega)
    have hy : charOf (b % 16 * 4) ≠ '=' := charOf_ne_pad _ (by omega)
    simp [b64encode, b64decode, h0, h1, h2, hy]
    omega
  | case4 a b c rest ih =>
    have ha : a < 256 := h a (by simp)
    have hb : b < 256 := h b (by simp)
    have hc : c < 256 := h c (by simp)
    have h0 : valOf (charOf (a / 4)) = some (a / 4) := valOf_charOf _ (by omega)
    have h1 : valOf (charOf (a % 4 * 16 + b / 16)) = some (a % 4 * 16 + b / 16) :=
      valOf_charOf _ (by omega)
    have h2 : valOf (charOf (b % 16 * 4 + c / 64)) = some (b % 16 * 4 + c / 64) :=
      valOf_charOf _ (by omega)
    have h3 : valOf (charOf (c % 64)) = some (c % 64) := valOf_charOf _ (by omega)
    have hy : charOf (b % 16 * 4 + c / 64) ≠ '=' := charOf_ne_pad _ (by omega)
    have hz : charOf (c % 64) ≠ '=' := charOf_ne_pad _ (by omega)
    have hrest : b64decode (b64encode rest) = some rest :=
      ih (fun x hx => h x (by simp [hx]))
    simp [b64encode, b64decode, h0, h1, h2, h3, hy, hz, hrest]
    omega

theorem dropWhile_dropWhile {α : Type} (p : α → Bool) (l : List α) :
    (l.dropWhile p).dropWhile p = l.dropWhile p := by
  induction l with
  | nil => simp
  | cons c t ih =>
    by_cases h : p c
    · simp [List.dropWhile_cons, h, ih]
    · simp [List.dropWhile_cons, h]

theorem dropWhile_eq_self_of_isPre {α : Type} {p : α → Bool} {x a : List α}
    (hxa : x <+: a) (ha : a.dropWhile p = a) : x.dropWhile p = x := by
  cases x with
  | nil => simp
  | cons c t =>
    obtain ⟨rest, hrest⟩ := hxa
    rw [← hrest, List.cons_append, List.dropWhile_cons] at ha
    have hc : ¬ p c = true := by
      intro hp
      rw [if_pos hp] at ha
      have hlen := (List.dropWhile_sublist (l := t ++ rest) p).length_le
      rw [ha] at hlen
      simp at hlen
    rw [List.dropWhile_cons, if_neg hc]

theorem rstrip_isPre (a : List Char) :
    (a.reverse.dropWhile isPySpace).reverse <+: a := by
  have h := List.reverse_prefix.mpr (List.dropWhile_suffix (l := a.reverse) isPySpace)
  simpa using h

theorem pyStrip_idem (l : List Char) : pyStrip (pyStrip l) = pyStrip l := by
  have h1 : (l.dropWhile isPySpace).dropWhile isPySpace = l.dropWhile isPySpace :=
    dropWhile_dropWhile _ _
  have hba : ((l.dropWhile isPySpace).reverse.dropWhile isPySpace).reverse
      <+: l.dropWhile isPySpace := rstrip_isPre _
  have h2 : (((l.dropWhile isPySpace).reverse.dropWhile isPySpace).reverse).dropWhile isPySpace
      = ((l.dropWhile isPySpace).reverse.dropWhile isPySpace).reverse :=
    dropWhile_eq_self_of_isPre hba h1
  simp only [pyStrip, h2, List.reverse_reverse, dropWhile_dropWhile]

theorem pyStrip_subset (l : List Char) : pyStrip l ⊆ l := by
  intro x hx
  simp only [pyStrip, List.mem_reverse] at hx
  have hx2 := List.dropWhile_subset (l := (l.dropWhile isPySpace).reverse) isPySpace hx
  rw [List.mem_reverse] at hx2
  exact List.dropWhile_subset isPySpace hx2

theorem pyStrip_cons_space {c : Char} (g : List Char) (hc : isPySpace c = true) :
    pyStrip (c :: g) = pyStrip g := by
  simp [pyStrip, List.dropWhile_cons, hc]

theorem pySplitDot_ne_nil (l : List Char) : pySplitDot l ≠ [] := by
  induction l with
  | nil => simp [pySplitDot]
  | cons c rest ih =>
    simp only [pySplitDot]
    split
    · simp
    · split <;> simp

theorem pySplitDot_no_dot (l : List Char) : ∀ g ∈ pySplitDot l, '.' ∉ g := by
  induction l with
  | nil =>
    intro g hg
    simp [pySplitDot] at hg
    simp [hg]
  | cons c rest ih =>
    intro g hg
    by_cases hc : c = '.'
    · simp only [pySplitDot, if_pos hc] at hg
      rcases List.mem_cons.mp hg with hg | hg
      · simp [hg]
      · exact ih g hg
    · simp only [pySplitDot, if_neg hc] at hg
      rcases hrest : pySplitDot rest with _ | ⟨g0, gs⟩
      · exact absurd hrest (pySplitDot_ne_nil rest)
      · rw [hrest] at hg
        rcases List.mem_cons.mp hg with hg | hg
        · subst hg
          intro hmem
          rcases List.mem_cons.mp hmem with h | h
          · exact hc h.symm
          · exact ih g0 (by rw [hrest]; exact List.mem_cons_self _ _) h
        · exact ih g (by rw [hrest]; exact List.mem_cons_of_mem _ hg)

theorem pySplitDot_append_dot (s : List Char) (y : List Char) (hs : '.' ∉ s) :
    pySplitDot (s ++ '.' :: y) = s :: pySplitDot y := by
  induction s with
  | nil => simp [pySplitDot]
  | cons c t ih =>
    have hc : ¬ c = '.' := by
      rintro rfl
      exact hs (List.mem_cons_self _ _)
    have ht : '.' ∉ t := fun h => hs (List.mem_cons_of_mem _ h)
    simp only [List.cons_append, pySplitDot, if_neg hc]
    rw [List.append_eq, ih ht]

theorem sentencesOf_cons_space {c : Char} (x : List Char) (hc : isPySpace c = true)
    (hcd : ¬ c = '.') : sentencesOf (c :: x) = sentencesOf x := by
  rcases hrest : pySplitDot x with _ | ⟨g, gs⟩
  · exact absurd hrest (pySplitDot_ne_nil x)
  · simp only [sentencesOf, pySplitDot, if_neg hcd, hrest]
    simp [pyStrip_cons_space g hc]

theorem sentencesOf_sep_append (s y : List Char) (hne : s ≠ []) (hstr : pyStrip s = s)
    (hdot : '.' ∉ s) : sentencesOf (s ++ '.' :: y) = s :: sentencesOf y := by
  simp only [sentencesOf, pySplitDot_append_dot s y hdot, List.map_cons, hstr,
    List.filter_cons]
  simp [hne]

theorem sentencesOf_flatten_map (ss : List (List Char))
    (h : ∀ s ∈ ss, s ≠ [] ∧ pyStrip s = s ∧ '.' ∉ s) :
    sentencesOf ((ss.map (fun s => s ++ sentSep)).flatten) = ss := by
  induction ss with
  | nil => simp [sentencesOf, pySplitDot, pyStrip]
  | cons s rest ih =>
    obtain ⟨hne, hstr, hdot⟩ := h s (List.mem_cons_self s rest)
    have hmap : (((s :: rest).map (fun u => u ++ sentSep)).flatten)
        = s ++ '.' :: ' ' :: ((rest.map (fun u => u ++ sentSep)).flatten) := by
      simp [sentSep]
    rw [hmap, sentencesOf_sep_append s _ hne hstr hdot,
      sentencesOf_cons_space _ (by decide) (by decide),
      ih (fun t ht => h t (List.mem_cons_of_mem _ ht))]

theorem sentencesOf_props (t : List Char) :
    ∀ s ∈ sentencesOf t, s ≠ [] ∧ pyStrip s = s ∧ '.' ∉ s := by
  intro s hs
  simp only [sentencesOf, List.mem_filter, List.mem_map] at hs
  obtain ⟨⟨u, hu, rfl⟩, hne⟩ := hs
  refine ⟨by simpa using hne, pyStrip_idem u, ?_⟩
  intro hmem
  exact pySplitDot_no_dot t u hu (pyStrip_subset u hmem)

theorem batchGo_flatten (ss : List (List Char)) (cur : List Char) :
    (batchGo ss cur).flatten = cur ++ (ss.map (fun s => s ++ sentSep)).flatten := by
  induction ss generalizing cur with
  | nil =>
    by_cases h : cur = [] <;> simp [batchGo, h]
  | cons s rest ih =>
    by_cases h1 : cur.length + s.length < 150
    · simp [batchGo, h1, ih]
    · by_cases h2 : cur = [] <;> simp [batchGo, h1, h2, ih]

/-- C3: concatenating all batches emitted by the sentence-batching step equals the
original sequence of non-empty stripped sentences each followed by the added `". "`
separator; consequently re-extracting sentences from the concatenation reproduces
exactly the original sentence sequence (nothing dropped, nothing duplicated,
order preserved). -/
theorem batching_preserves_sentences (text : List Char) :
    (batchedSentences text).flatten
      = ((sentencesOf text).map (fun s => s ++ sentSep)).flatten
    ∧ sentencesOf ((batchedSentences text).flatten) = sentencesOf text := by
  have h1 : (batchedSentences text).flatten
      = ((sentencesOf text).map (fun s => s ++ sentSep)).flatten := by
    simpa [batchedSentences] using batchGo_flatten (sentencesOf text) []
  exact ⟨h1, by rw [h1]; exact sentencesOf_flatten_map _ (sentencesOf_props text)⟩

/-- C8: the input `"Hello. World."` yields exactly one batch, `"Hello. World. "`. -/
theorem hello_world_single_batch :
    batchedSentences (String.toList "Hello. World.") = [String.toList "Hello. World. "] := by
  decide

theorem isInfix_append_left {α : Type} (s : List α) {x t : List α} (h : x <:+: t) :
    x <:+: s ++ t := by
  obtain ⟨u, v, huv⟩ := h
  exact ⟨s ++ u, v, by rw [← huv]; simp⟩

theorem mem_commaSep_isInfix (x : List Char) (xs : List (List Char)) (h : x ∈ xs) :
    x <:+: commaSep xs := by
  induction xs with
  | nil => cases h
  | cons a rest ih =>
    rcases List.mem_cons.mp h with rfl | hx
    · cases rest with
      | nil => simp [commaSep]
      | cons b r => exact ⟨[], [',', ' '] ++ commaSep (b :: r), by simp [commaSep]⟩
    · cases rest with
      | nil => cases hx
      | cons b r =>
        obtain ⟨u, v, huv⟩ := ih hx
        refine ⟨a ++ [',', ' '] ++ u, v, ?_⟩
        simp only [commaSep]
        rw [← huv]
        simp

theorem mem_voiceErrMsg_isInfix (voices : List (List Char)) (u : List Char)
    (hu : u ∈ voices) : u <:+: voiceErrMsg voices := by
  have h1 : u <:+: pyQuote u := ⟨[squoteChar], [squoteChar], by simp [pyQuote]⟩
  have h2 : pyQuote u <:+: commaSep (voices.map pyQuote) :=
    mem_commaSep_isInfix _ _ (List.mem_map_of_mem _ hu)
  have h3 : commaSep (voices.map pyQuote) <:+: pyStrListRepr voices :=
    ⟨['['], [']'], by simp [pyStrListRepr]⟩
  have h4 : pyStrListRepr voices <:+: voiceErrMsg voices :=
    isInfix_append_left _ List.infix_rfl
  exact h1.trans (h2.trans (h3.trans h4))

/-- C5: a `set_voice` request carrying a voice identifier not in the voice store
leaves the session state unchanged, emits an error event whose message contains
every valid voice identifier, and never emits `voice_set`. -/
theorem set_voice_unknown_keeps_state (voices : List (List Char)) (session : Session)
    (v : List Char) (hv : v ∉ voices) :
    handle_set_voice voices session (some v) = (session, .errorEvt (voiceErrMsg voices))
    ∧ (∀ u ∈ voices, u <:+: voiceErrMsg voices)
    ∧ ∀ w, (handle_set_voice voices session (some v)).2 ≠ SockEvent.voiceSet w := by
  have h1 : handle_set_voice voices session (some v)
      = (session, .errorEvt (voiceErrMsg voices)) := by
    simp [handle_set_voice, hv]
  refine ⟨h1, fun u hu => mem_voiceErrMsg_isInfix voices u hu, fun w => ?_⟩
  rw [h1]
  simp

/-- Witness for C5 at a concrete unknown voice identifier. -/
theorem set_voice_unknown_keeps_state_witness :
    handle_set_voice [String.toList "af"] initSession (some (String.toList "zz"))
        = (initSession, .errorEvt (voiceErrMsg [String.toList "af"]))
    ∧ (∀ u ∈ [String.toList "af"], u <:+: voiceErrMsg [String.toList "af"])
    ∧ ∀ w, (handle_set_voice [String.toList "af"] initSession
        (some (String.toList "zz"))).2 ≠ SockEvent.voiceSet w :=
  set_voice_unknown_keeps_state [String.toList "af"] initSession (String.toList "zz")
    (by decide)

/-- C9: a `tts` event whose text strips to the empty string returns silently:
no event is emitted, nothing is enqueued, no worker is spawned, and the session
is unchanged. -/
theorem tts_blank_text_silent (s : Session) (dataText : Option (List Char))
    (h : pyStrip (dataText.getD []) = []) :
    handle_tts (some s) dataText = (some s, [], false) := by
  simp [handle_tts, h]

/-- Witness for C9 at whitespace-only text. -/
theorem tts_blank_text_silent_witness :
    handle_tts (some initSession) (some (String.toList "   "))
      = (some initSession, [], false) :=
  tts_blank_text_silent initSession (some (String.toList "   ")) (by decide)

/-- C4: every payload the Socket.IO worker emits as an `audio_chunk` event is
the base64 encoding of WAV bytes that start with `RIFF`, carry `WAVE` at bytes
8..12 and are at least 44 bytes long; bytes failing any of these checks are
never emitted as audio — an error event is emitted instead. -/
theorem audio_chunk_only_valid_wav (wav : List Nat) (batchText p t : List Char)
    (h256 : ∀ b ∈ wav, b < 256) :
    (sendBatchAudio wav batchText = .audioChunk p t →
      b64decode p = some wav ∧ 44 ≤ wav.length ∧ wav.take 4 = riffBytes
        ∧ (wav.drop 8).take 4 = waveBytes)
    ∧ ((wav.length < 44 ∨ wav.take 4 ≠ riffBytes ∨ (wav.drop 8).take 4 ≠ waveBytes) →
      ∃ m, sendBatchAudio wav batchText = .errorEvt m) := by
  constructor
  · intro he
    by_cases h1 : wav.length < 44
    · simp [sendBatchAudio, h1] at he
    · by_cases h2 : wav.take 4 = riffBytes
      · by_cases h3 : (wav.drop 8).take 4 = waveBytes
        · simp only [sendBatchAudio, h1, if_false, h2, h3] at he
          simp at he
          obtain ⟨hp, -⟩ := he
          subst hp
          exact ⟨b64decode_b64encode wav h256, by omega, h2, h3⟩
        · simp [sendBatchAudio, h1, h2, h3] at he
      · simp [sendBatchAudio, h1, h2] at he
  · intro hbad
    by_cases h1 : wav.length < 44
    · exact ⟨genErrMsg (String.toList "WAV data too short"), by simp [sendBatchAudio, h1]⟩
    · by_cases h2 : wav.take 4 = riffBytes
      · by_cases h3 : (wav.drop 8).take 4 = waveBytes
        · rcases hbad with hb | hb | hb
          · exact absurd hb h1
          · exact absurd h2 hb
          · exact absurd h3 hb
        · exact ⟨genErrMsg (String.toList "Invalid WAV format"), by simp [sendBatchAudio, h1, h2, h3]⟩
      · exact ⟨genErrMsg (String.toList "Invalid WAV format"), by simp [sendBatchAudio, h1, h2]⟩

/-- Witness for C4: a concrete 44-byte RIFF/WAVE header is emitted as audio and
its payload decodes back to those bytes. -/
theorem audio_chunk_only_valid_wav_witness :
    b64decode (b64encode wav44) = some wav44 ∧ 44 ≤ wav44.length
      ∧ wav44.take 4 = riffBytes ∧ (wav44.drop 8).take 4 = waveBytes :=
  (audio_chunk_only_valid_wav wav44 [] (b64encode wav44) [] (by decide)).1 (by decide)

theorem worker_count_eq (p : Session × Nat) (h : Reachable p) :
    p.2 = if p.1.processing then 1 else 0 := by
  induction h with
  | init => simp [initSession]
  | step hr hs ih =>
    cases hs with
    | tts s w t s2 spawned h =>
      simp only [handle_tts, Option.getD_some] at h
      split at h
      · simp at h
        obtain ⟨rfl, rfl⟩ := h
        simpa using ih
      · split at h
        · simp at h
          obtain ⟨rfl, rfl⟩ := h
          simpa using ih
        · rename_i hproc
          simp at h
          obtain ⟨rfl, rfl⟩ := h
          simp at hproc
          simp only [hproc, if_false] at ih
          simp [ih]
    | setVoice s w voices dv s2 ev h =>
      have hp : s2.processing = s.processing := by
        simp only [handle_set_voice] at h
        split at h <;> (simp at h; obtain ⟨rfl, -⟩ := h) <;> rfl
      simpa [hp] using ih
    | workPop s w t rest hq hw =>
      simpa using ih
    | workDone s w hq hw =>
      cases hsp : s.processing
      · rw [hsp] at ih
        simp at ih
        omega
      · rw [hsp] at ih
        simp at ih
        simp
        omega

/-- C6: in every reachable per-session state, a clear processing flag means no
worker is draining the session's queue, and at most one worker drains the queue
at any time (the `tts` step of `Step` enqueues and starts a worker only when the
flag is clear, setting it before the start; the worker steps dequeue one text at
a time and clear the flag only when the queue is empty). -/
theorem single_worker_drains (s : Session) (w : Nat) (h : Reachable (s, w)) :
    (s.processing = false → w = 0) ∧ w ≤ 1 := by
  have hinv := worker_count_eq (s, w) h
  simp only at hinv
  constructor
  · intro hp
    rw [hp] at hinv
    simpa using hinv
  · rw [hinv]
    split <;> omega

/-- Witness for C6 at the initial (just connected) state. -/
theorem single_worker_drains_witness :
    (initSession.processing = false → 0 = 0) ∧ 0 ≤ 1 :=
  single_worker_drains initSession 0 Reachable.init

theorem chunkEvery_ne_nil (cPred : Nat) (l : List Char) (h : l ≠ []) :
    chunkEvery cPred l ≠ [] := by
  cases l with
  | nil => exact absurd rfl h
  | cons x xs => rw [chunkEvery]; simp

theorem chunkEvery_flatten (cPred : Nat) (l : List Char) :
    (chunkEvery cPred l).flatten = l := by
  induction l using chunkEvery.induct cPred with
  | case1 => simp [chunkEvery]
  | case2 x xs ih =>
    rw [chunkEvery]
    simp only [List.flatten_cons, ih]
    exact List.take_append_drop _ _

theorem chunkEvery_length (cPred : Nat) (l : List Char) :
    (chunkEvery cPred l).length = (l.length + cPred) / (cPred + 1) := by
  induction l using chunkEvery.induct cPred with
  | case1 =>
    rw [chunkEvery]
    simp [Nat.div_eq_of_lt]
  | case2 x xs ih =>
    rw [chunkEvery]
    have hd : (List.drop (cPred + 1) (x :: xs)).length = xs.length - cPred := by
      simp
    simp only [List.length_cons, ih, hd]
    by_cases hle : xs.length ≤ cPred
    · have h0 : xs.length - cPred = 0 := by omega
      rw [h0]
      have h1 : (0 + cPred) / (cPred + 1) = 0 := Nat.div_eq_of_lt (by omega)
      have h2 : (xs.length + 1 + cPred) / (cPred + 1) = 1 :=
        Nat.div_eq_of_lt_le (by omega) (by omega)
      omega
    · have h4 : xs.length - cPred + cPred = xs.length := by omega
      rw [h4]
      have h5 : xs.length + 1 + cPred = xs.length + (cPred + 1) := by omega
      rw [h5, Nat.add_div_right _ (by omega)]

theorem audioFrames_ne_nil (cPred : Nat) (l : List Char) (h : l ≠ []) :
    audioFrames cPred l ≠ [] := by
  cases l with
  | nil => exact absurd rfl h
  | cons x xs =>
    rw [audioFrames]
    split <;> simp

theorem audioFrames_fst (cPred : Nat) (l : List Char) :
    (audioFrames cPred l).map Prod.fst = chunkEvery cPred l := by
  induction l using audioFrames.induct cPred with
  | case1 => simp [audioFrames, chunkEvery]
  | case2 x xs hnil =>
    rw [audioFrames, if_pos hnil, chunkEvery, hnil, chunkEvery]
    simp
  | case3 x xs hnil ih =>
    rw [audioFrames, if_neg hnil, chunkEvery]
    rw [List.map_cons, ih]

theorem audioFrames_sizes (cPred : Nat) (l : List Char) (i : Nat)
    (h : i + 1 < (audioFrames cPred l).length) :
    ((audioFrames cPred l).getD i ([], false)).1.length = cPred + 1 := by
  induction l using audioFrames.induct cPred generalizing i with
  | case1 => simp [audioFrames] at h
  | case2 x xs hnil =>
    rw [audioFrames, if_pos hnil] at h
    simp at h
  | case3 x xs hnil ih =>
    rw [audioFrames, if_neg hnil] at h ⊢
    cases i with
    | zero =>
      simp only [List.getD_cons_zero]
      have hlen : cPred + 1 < (x :: xs).length := by
        by_contra hle
        push_neg at hle
        exact hnil (List.drop_eq_nil_of_le hle)
      simp only [List.length_take]
      omega
    | succ j =>
      simp only [List.length_cons] at h
      simp only [List.getD_cons_succ]
      exact ih j (by omega)

theorem audioFrames_final_flag (cPred : Nat) (l : List Char) (i : Nat)
    (h : i < (audioFrames cPred l).length) :
    (((audioFrames cPred l).getD i ([], false)).2 = true
      ↔ i + 1 = (audioFrames cPred l).length) := by
  induction l using audioFrames.induct cPred generalizing i with
  | case1 => simp [audioFrames] at h
  | case2 x xs hnil =>
    rw [audioFrames, if_pos hnil] at h ⊢
    simp only [List.length_cons, List.length_nil] at h ⊢
    have hi : i = 0 := by omega
    subst hi
    simp
  | case3 x xs hnil ih =>
    rw [audioFrames, if_neg hnil] at h ⊢
    cases i with
    | zero =>
      simp only [List.getD_cons_zero, List.length_cons]
      have hF : audioFrames cPred ((x :: xs).drop (cPred + 1)) ≠ [] :=
        audioFrames_ne_nil cPred _ hnil
      constructor
      · intro hc
        simp at hc
      · intro h1
        exfalso
        have hlen0 : (audioFrames cPred ((x :: xs).drop (cPred + 1))).length = 0 := by
          omega
        exact hF (List.length_eq_zero.mp hlen0)
    | succ j =>
      simp only [List.getD_cons_succ, List.length_cons] at h ⊢
      rw [ih j (by omega)]
      omega

/-- C7 (spec-modelled: the chunking transport is not in `src/`): splitting a
base64 audio string of length N into frames of size `C = cPred + 1` yields
exactly `⌈N/C⌉ = (N + C - 1) / C` frames, concatenating the frames in order
reproduces the string exactly, every frame except the last has size `C`, and a
frame carries the `is_final` flag exactly when it is the last frame. -/
theorem audio_frame_chunking (cPred : Nat) (s : List Char) (i : Nat)
    (h : i < (audioFrames cPred s).length) :
    ((audioFrames cPred s).map Prod.fst).flatten = s
    ∧ (audioFrames cPred s).length = (s.length + cPred) / (cPred + 1)
    ∧ (i + 1 < (audioFrames cPred s).length →
        ((audioFrames cPred s).getD i ([], false)).1.length = cPred + 1)
    ∧ (((audioFrames cPred s).getD i ([], false)).2 = true
        ↔ i + 1 = (audioFrames cPred s).length) := by
  refine ⟨?_, ?_, fun hi => audioFrames_sizes cPred s i hi,
    audioFrames_final_flag cPred s i h⟩
  · rw [audioFrames_fst]
    exact chunkEvery_flatten cPred s
  · rw [← List.length_map (audioFrames cPred s) Prod.fst, audioFrames_fst]
    exact chunkEvery_length cPred s

/-- Witness for C7 at frame size 2 on the string `"abcde"` (frames `"ab"`,
`"cd"`, `"e"`), inspecting the middle frame. -/
theorem audio_frame_chunking_witness :
    ((audioFrames 1 (String.toList "abcde")).map Prod.fst).flatten
        = String.toList "abcde"
    ∧ (audioFrames 1 (String.toList "abcde")).length
        = ((String.toList "abcde").length + 1) / (1 + 1)
    ∧ (1 + 1 < (audioFrames 1 (String.toList "abcde")).length →
        ((audioFrames 1 (String.toList "abcde")).getD 1 ([], false)).1.length = 1 + 1)
    ∧ (((audioFrames 1 (String.toList "abcde")).getD 1 ([], false)).2 = true
        ↔ 1 + 1 = (audioFrames 1 (String.toList "abcde")).length) :=
  audio_frame_chunking 1 (String.toList "abcde") 1 (by simp [audioFrames, String.toList])

theorem text_to_speech_unbound {α : Type} (wavBytes : List α → List Nat)
    (voices : List (List Char)) (gen : List Char → List Char → List α)
    (t : List Char) (dataVoice : Option (List Char)) :
    text_to_speech wavBytes voices gen (some t) dataVoice
      = (.serverError unboundLocalMsg, 0) := by
  simp only [text_to_speech]
  by_cases hlen : 150 < t.length
  · rw [if_pos hlen]
    obtain ⟨c, rest, hcr⟩ : ∃ c rest, pyChunks 150 t = c :: rest := by
      have hne : pyChunks 150 t ≠ [] := by
        apply chunkEvery_ne_nil
        intro hnil
        rw [hnil] at hlen
        simp at hlen
      cases hpc : pyChunks 150 t with
      | nil => exact absurd hpc hne
      | cons c rest => exact ⟨c, rest, rfl⟩
    rw [hcr]
    rfl
  · rw [if_neg hlen]
    rfl

/-- C2: in the HTTP `/tts` handler the function-local `voice_name` is read in
the generation loop before its only assignment, so every request with non-empty
text raises the name-resolution error inside the loop — before any validation
branch — performs no `generate` call, and ends in the generic HTTP 500 branch
rather than a successful WAV response. -/
theorem http_tts_unbound_local {α : Type} (wavBytes : List α → List Nat)
    (voices : List (List Char)) (gen : List Char → List Char → List α)
    (t : List Char) (dataVoice : Option (List Char)) (ht : t ≠ []) :
    text_to_speech wavBytes voices gen (some t) dataVoice
      = (.serverError unboundLocalMsg, 0)
    ∧ ∀ n, text_to_speech wavBytes voices gen (some t) dataVoice ≠ (.okWav, n) := by
  refine ⟨text_to_speech_unbound wavBytes voices gen t dataVoice, fun n => ?_⟩
  rw [text_to_speech_unbound]
  simp

/-- Witness for C2 at the concrete request text `"hi"`. -/
theorem http_tts_unbound_local_witness :
    text_to_speech (fun _ : List Unit => ([] : List Nat)) []
        (fun _ _ => ([] : List Unit)) (some (String.toList "hi")) none
      = (.serverError unboundLocalMsg, 0)
    ∧ ∀ n, text_to_speech (fun _ : List Unit => ([] : List Nat)) []
        (fun _ _ => ([] : List Unit)) (some (String.toList "hi")) none
      ≠ (.okWav, n) :=
  http_tts_unbound_local _ _ _ _ _ (by decide)

/-- C1 (the code contradicts the claimed behaviour): at the failing input — a
501-character text, over the 500-character maximum — the handler does not
return the 400 length-error response: the read of the unassigned local
`voice_name` raises first, the response is the generic 500 error, and no
`generate` call is performed (the count is 0). -/
theorem http_tts_overlong_gets_500_not_400 {α : Type} (wavBytes : List α → List Nat)
    (voices : List (List Char)) (gen : List Char → List Char → List α)
    (dataVoice : Option (List Char)) :
    text_to_speech wavBytes voices gen (some longText) dataVoice
      = (.serverError unboundLocalMsg, 0)
    ∧ text_to_speech wavBytes voices gen (some longText) dataVoice
      ≠ (.clientError maxLenErrMsg, 0) := by
  refine ⟨text_to_speech_unbound wavBytes voices gen longText dataVoice, ?_⟩
  rw [text_to_speech_unbound]
  simp

/-- C10: the post-generation part of the HTTP handler returns HTTP 500 with
message `Generated audio file too small` whenever the serialized WAV buffer is
smaller than 1024 bytes (no matter how well-formed the WAV data is), and
returns the successful `audio/wav` response only when the buffer size is at
least 1024 bytes. -/
theorem http_small_wav_rejected {α : Type} (wavBytes : List α → List Nat)
    (voices : List (List Char)) (t : List Char) (dataVoice : Option (List Char))
    (audio : List α) (hlen : t.length ≤ 500) (hne : t ≠ [])
    (hv : dataVoice.getD DEFAULT_VOICE ∈ voices) (haudio : audio.isEmpty = false)
    (hsize : (wavBytes audio).length < 1024) :
    afterGenerate wavBytes voices t dataVoice audio = .serverError tooSmallErrMsg
    ∧ ∀ (wb2 : List α → List Nat) (v2 : List (List Char)) (t2 : List Char)
        (dv2 : Option (List Char)) (a2 : List α),
        afterGenerate wb2 v2 t2 dv2 a2 = .okWav → 1024 ≤ (wb2 a2).length := by
  constructor
  · simp only [afterGenerate]
    rw [if_neg (by omega), if_neg hne, if_neg (not_not_intro hv), if_neg (by simp [haudio]),
      if_pos hsize]
  · intro wb2 v2 t2 dv2 a2 hok
    by_contra hlt
    push_neg at hlt
    by_cases h1 : 500 < t2.length
    · simp [afterGenerate, h1] at hok
    · by_cases h2 : t2 = []
      · simp [afterGenerate, h1, h2] at hok
      · by_cases h3 : dv2.getD DEFAULT_VOICE ∈ v2
        · by_cases h4 : a2.isEmpty
          · simp [afterGenerate, h1, h2, h3, h4] at hok
          · simp [afterGenerate, h1, h2, h3, h4, hlt] at hok
        · simp [afterGenerate, h1, h2, h3] at hok

/-- Witness for C10 at a concrete 100-byte WAV buffer. -/
theorem http_small_wav_rejected_witness :
    afterGenerate (fun _ : List Unit => List.replicate 100 0) [String.toList "af"]
        (String.toList "hi") none [()] = .serverError tooSmallErrMsg
    ∧ ∀ (wb2 : List Unit → List Nat) (v2 : List (List Char)) (t2 : List Char)
        (dv2 : Option (List Char)) (a2 : List Unit),
        afterGenerate wb2 v2 t2 dv2 a2 = .okWav → 1024 ≤ (wb2 a2).length :=
  http_small_wav_rejected _ _ _ _ _ (by decide) (by decide) (by decide) (by decide)
    (by decide)
